import Mathlib

/-!
# Verification of the ss-pool proxy pool core

Shallow embedding of `src/ss_pool/core.py` and `src/ss_pool/util.py`.

Modelling conventions:
- Python `time.monotonic()` timestamps and float durations are rationals (`ℚ`);
  the current time is threaded explicitly through every function that reads the
  clock in the source.
- A node's mutable state (`disable_until`, `_process`, `_port`) lives in a
  `ProxyState`; the pool owns a store mapping a node id (`Nat`) to its state,
  which models Python's mutation of shared `Proxy` objects.
- A child process handle is `Option Int`: the `returncode` attribute, `none`
  while the process is still running.  `_process is None` is modelled by the
  outer `Option`.
- The outcome of one `create_subprocess_exec` + 1-second grace period is an
  oracle value `Option Int` (the returncode observed after the grace period);
  the unbounded `while True` retry loop of `Proxy.start` is given fuel, and
  exhausted fuel (`none` result) models divergence of the loop.
- `asyncio` exceptions become `Except` / explicit error components; a
  suspension that can never be resumed in a sequential execution (empty gate,
  blocking `get` on an empty queue, a start loop that never succeeds) is the
  distinguished outcome `blocked`.
-/

deriving instance DecidableEq for Except

namespace SSPool

/-! ## Node identity (`Proxy.__hash__` / `Proxy.__eq__`, core.py 138-144) -/

/-- The immutable identity fields of `Proxy.__init__` (core.py 18-31).
`name` defaults to `"UNKNOWN"` in the source and is mutable-irrelevant here. -/
structure Proxy where
  server_addr : String
  encrypt_method : String
  password : String
  name : String
deriving DecidableEq, Repr

/-- The string hashed by `Proxy.__hash__` (core.py 140):
`f'Proxy(server_addr="...")'` — built from the type name and the server
address only.  Python's string hash is modelled as the string itself (an
injective hash), so hash equality is equality of these strings. -/
def hashKey (p : Proxy) : String :=
  "Proxy(server_addr=\"" ++ p.server_addr ++ "\")"

/-- `Proxy.__eq__` (core.py 142-144): `isinstance(o, type(self)) and
hash(self) == hash(o)`.  Both arguments being `Proxy` discharges the
`isinstance` test in this typed embedding. -/
def proxyEq (a b : Proxy) : Bool :=
  hashKey a == hashKey b

/-! ## Node mutable state -/

/-- Mutable per-node state (core.py 33-36): `disable_until` (a monotonic
timestamp), `_process` (`some rc?` = a recorded process whose returncode is
`rc?`, `none` = no process recorded), `_port`. -/
structure ProxyState where
  disable_until : ℚ
  process : Option (Option Int)
  port : Option Nat
deriving DecidableEq, Repr

/-- `Proxy.is_started` (core.py 54-56): a process is recorded and its
returncode is still `None`. -/
def isStarted (st : ProxyState) : Bool :=
  match st.process with
  | some none => true
  | _ => false

/-- `Proxy.is_disabled` (core.py 128-130): `disable_until > monotonic()`. -/
def isDisabled (st : ProxyState) (now : ℚ) : Bool :=
  st.disable_until > now

/-- `Proxy.stop` (core.py 120-126): terminate the process if recorded and
alive, clear the recorded process and port regardless. -/
def proxyStop (st : ProxyState) : ProxyState :=
  { st with process := none, port := none }

/-! ## `Proxy.start` (core.py 58-118) -/

/-- Errors that `Proxy._start` can raise: `ProxyError` (process exited during
the grace period / port already in use) and `FileNotFoundError` (ACL path is
not a regular file). -/
inductive StartErr where
  | proxyError
  | fileNotFound
deriving DecidableEq, Repr

/-- One call of `Proxy._start` (core.py 78-118) at a given port.
`aclOk` models the optional ACL path: `none` = no ACL configured, `some b`
= an ACL path was given and `b` says whether `acl.is_file()` holds.
`outcome` is the oracle for the spawned process: the returncode observed
after the 1-second grace period (`none` = still running = success).
Returns the attempt result together with the list of ports actually spawned
(empty when the call returned or raised before spawning). -/
def startOnce (st : ProxyState) (aclOk : Option Bool) (outcome : Option Int)
    (port : Nat) : Except StartErr ProxyState × List Nat :=
  if isStarted st then (.ok st, [])
  else
    match aclOk with
    | some false => (.error .fileNotFound, [])
    | _ =>
      match outcome with
      | none => (.ok { st with process := some none, port := some port }, [port])
      | some _ => (.error .proxyError, [port])

/-- `Proxy.start` (core.py 58-77): `while True: try: return _start(...)
except ProxyError: if port is not None: raise`.
`rand i` is the port drawn by `randint(10000, 60000)` on trial `i`;
`outcomes i` is the spawn oracle for trial `i`; `i` is the current trial
index and `fuel` bounds the number of loop iterations we unfold (`none` =
the loop is still running after `fuel` iterations).
Returns the result together with all ports spawned across the retries. -/
def startLoop (rand : Nat → Nat) (outcomes : Nat → Option Int)
    (aclOk : Option Bool) (st : ProxyState) (port : Option Nat) :
    Nat → Nat → Option (Except StartErr ProxyState × List Nat)
  | _, 0 => none
  | i, fuel + 1 =>
    let p := match port with
      | some p => p
      | none => rand i
    match startOnce st aclOk (outcomes i) p with
    | (.ok st', ports) => some (.ok st', ports)
    | (.error .fileNotFound, ports) => some (.error .fileNotFound, ports)
    | (.error .proxyError, ports) =>
      match port with
      | some _ => some (.error .proxyError, ports)
      | none =>
        match startLoop rand outcomes aclOk st none (i + 1) fuel with
        | none => none
        | some (r, ports') => some (r, ports ++ ports')

/-! ## `CustomPriorityQueue` (util.py 161-181)

The queue stores entries `(self._prio(item), self._auto_id, item)` in a
`heapq` binary heap (util.py 174-181).  `heapq` is Python's standard library
(external to this repository); its observable contract — `heappop` removes
the entry that is minimal in the lexicographic tuple order, and entries here
never tie because `_auto_id` is unique — is modelled by keeping the entry
list sorted by `(key, id)` and popping the head.  The bounded/unbounded
behaviour (`maxsize <= 0` means unlimited) and the `QueueEmpty`/`QueueFull`
errors of `asyncio.Queue.get_nowait`/`put_nowait` are modelled directly. -/

/-- A queue entry: `(priority key, insertion sequence number, item)`
(util.py 180: `entity = (self._prio(item), self._auto_id, item)`). -/
abbrev Entry (T : Type) := ℚ × Nat × T

/-- The lexicographic order on `(key, id)` in which `heapq` removes entries;
the third tuple component is never compared because ids are unique. -/
def entryLe {T : Type} (e e' : Entry T) : Prop :=
  e.1 < e'.1 ∨ (e.1 = e'.1 ∧ e.2.1 ≤ e'.2.1)

instance {T : Type} : DecidableRel (entryLe (T := T)) := fun e e' => by
  unfold entryLe
  infer_instance

instance {T : Type} : IsTotal (Entry T) entryLe := by
  constructor
  intro a b
  rcases lt_trichotomy a.1 b.1 with h | h | h
  · exact Or.inl (Or.inl h)
  · rcases Nat.le_total a.2.1 b.2.1 with h2 | h2
    · exact Or.inl (Or.inr ⟨h, h2⟩)
    · exact Or.inr (Or.inr ⟨h.symm, h2⟩)
  · exact Or.inr (Or.inl h)

instance {T : Type} : IsTrans (Entry T) entryLe := by
  constructor
  rintro a b c (h1 | ⟨h1, h1'⟩) (h2 | ⟨h2, h2'⟩)
  · exact Or.inl (h1.trans h2)
  · exact Or.inl (h2 ▸ h1)
  · exact Or.inl (h1 ▸ h2)
  · exact Or.inr ⟨h1.trans h2, h1'.trans h2'⟩

/-- The state of a `CustomPriorityQueue` (util.py 164-172):
`maxsize` (from `asyncio.Queue`, `≤ 0` = unbounded), the `_auto_id`
counter, and the entry heap `_queue` (kept sorted by `(key, id)`). -/
structure CPQ (T : Type) where
  maxsize : Int
  auto_id : Nat
  queue : List (Entry T)
deriving DecidableEq, Repr

/-- `QueueEmpty` / `QueueFull` from `asyncio`. -/
inductive QueueErr where
  | queueEmpty
  | queueFull
deriving DecidableEq, Repr

/-- A freshly constructed `CustomPriorityQueue(priority, maxsize)`:
`_auto_id = 0`, `_queue = []` (util.py 164-172). -/
def cpqInit (T : Type) (maxsize : Int) : CPQ T :=
  { maxsize := maxsize, auto_id := 0, queue := [] }

/-- `Queue.qsize()`: the number of stored entries. -/
def cpqSize {T : Type} (q : CPQ T) : Nat :=
  q.queue.length

/-- `asyncio.Queue.full()`: `False` when `maxsize <= 0`, else
`qsize() >= maxsize`. -/
def cpqFull {T : Type} (q : CPQ T) : Bool :=
  if q.maxsize ≤ 0 then false else (q.maxsize : Int) ≤ (cpqSize q : Int)

/-- `put_nowait(item)` where the caller passes the priority key
`self._prio(item)` as evaluated at push time (util.py 178-181): raise
`QueueFull` when full, else increment `_auto_id` and heap-push the entry
`(key, _auto_id, item)`. -/
def cpqPut {T : Type} (q : CPQ T) (key : ℚ) (item : T) :
    Except QueueErr (CPQ T) :=
  if cpqFull q then .error .queueFull
  else
    .ok { q with
          auto_id := q.auto_id + 1,
          queue := q.queue.orderedInsert entryLe (key, q.auto_id + 1, item) }

/-- `put_nowait` for a queue whose priority callback is a fixed pure
function of the item (the generic `CustomPriorityQueue` contract of
util.py 164-166). -/
def cpqPutP {T : Type} (prio : T → ℚ) (q : CPQ T) (item : T) :
    Except QueueErr (CPQ T) :=
  cpqPut q (prio item) item

/-- `get_nowait()`: raise `QueueEmpty` when empty, else heap-pop the
minimal entry and return its item (util.py 174-176). -/
def cpqGet {T : Type} (q : CPQ T) : Except QueueErr (T × CPQ T) :=
  match q.queue with
  | [] => .error .queueEmpty
  | e :: rest => .ok (e.2.2, { q with queue := rest })

/-- Queue states reachable from a fresh `CustomPriorityQueue` with a fixed
priority callback by successful `put_nowait`/`get_nowait` calls. -/
inductive Reach {T : Type} (prio : T → ℚ) (maxsize : Int) : CPQ T → Prop where
  | init : Reach prio maxsize (cpqInit T maxsize)
  | put {q q' : CPQ T} {t : T} (hq : Reach prio maxsize q)
      (h : cpqPutP prio q t = .ok q') : Reach prio maxsize q'
  | get {q q' : CPQ T} {t : T} (hq : Reach prio maxsize q)
      (h : cpqGet q = .ok (t, q')) : Reach prio maxsize q'

/-! ## `ProxyPool` (core.py 147-304)

The pool is modelled with node ids (`Nat`) as queue items and a store
`Nat → ProxyState` for the shared mutable `Proxy` objects.  The priority
callback `lambda p: p.disable_until` (core.py 172-174) reads the node's
current `disable_until` when `_put` evaluates it, i.e. at push time; every
pool-level push therefore passes `(store pid).disable_until` of the store
current at that push. -/

/-- Pointwise store update (Python mutates the shared `Proxy` object). -/
def updStore (store : Nat → ProxyState) (pid : Nat) (st : ProxyState) :
    Nat → ProxyState :=
  fun x => if x = pid then st else store x

/-- `ProxyPool` state: the deduplicated node list `_all`, the shared node
states, the construction parameters `_max_acquire` / `_acl`, the two queues
(core.py 172-174: `active` bounded by `max_acquire`, `standby` unbounded),
and the value of `_acquire_sem` (number of free permits). -/
structure Pool where
  all : List Nat
  store : Nat → ProxyState
  maxAcquire : Int
  aclOk : Option Bool
  active : CPQ Nat
  standby : CPQ Nat
  sem : Nat

/-- `ProxyPool.disable(proxy, second)` (core.py 235-242):
`proxy.disable_until = monotonic() + second`.  Only the store changes. -/
def poolDisable (pool : Pool) (pid : Nat) (second : ℚ) (now : ℚ) : Pool :=
  { pool with
    store := updStore pool.store pid
      { pool.store pid with disable_until := now + second } }

/-- `ProxyPool.release(proxy)` (core.py 204-224).  The body runs under
`try/finally`; the `finally` releases the semaphore once whether or not the
body raised, and a body error then propagates.  The result is the pool state
after the `finally` together with the propagated error, if any. -/
def poolRelease (pool : Pool) (pid : Nat) (now : ℚ) : Pool × Option QueueErr :=
  let body : Pool × Option QueueErr :=
    if isDisabled (pool.store pid) now then
      -- disabled: stop the process, put into standby
      let store' := updStore pool.store pid (proxyStop (pool.store pid))
      match cpqPut pool.standby (store' pid).disable_until pid with
      | .ok q => ({ pool with store := store', standby := q }, none)
      | .error e => ({ pool with store := store' }, some e)
    else
      -- not disabled: try active; on QueueFull stop the process and
      -- put into standby (core.py 216-221)
      match cpqPut pool.active (pool.store pid).disable_until pid with
      | .ok q => ({ pool with active := q }, none)
      | .error _ =>
        let store' := updStore pool.store pid (proxyStop (pool.store pid))
        match cpqPut pool.standby (store' pid).disable_until pid with
        | .ok q => ({ pool with store := store', standby := q }, none)
        | .error e => ({ pool with store := store' }, some e)
  ({ body.1 with sem := body.1.sem + 1 }, body.2)

/-- Outcome of one sequential execution of `ProxyPool.acquire` (core.py
176-202): success returns the final pool, the checked-out node and the time
at which `acquire` returns; a raised error has already released the gate
permit (the `except Exception` handler); `blocked` covers the suspensions
that cannot resume in a sequential run (gate empty, blocking `get` on an
empty standby queue, a start retry loop that never succeeds). -/
inductive AcqOutcome where
  | success (pool : Pool) (pid : Nat) (retTime : ℚ)
  | failure (pool : Pool) (e : StartErr)
  | blocked

/-- The node returned by an `acquire` outcome, when it succeeded. -/
def acqPid : AcqOutcome → Option Nat
  | .success _ pid _ => some pid
  | _ => none

/-- The time at which an `acquire` outcome returned, when it succeeded. -/
def acqTime : AcqOutcome → Option ℚ
  | .success _ _ t => some t
  | _ => none

/-- Steps 3-5 of `acquire` after a node was popped (core.py 189-202): wait
out the disable window, lazily start the node (port `None`, the pool's ACL),
return it; on an exception release the semaphore and re-raise.  Each spawn
attempt of the start loop advances time by the 1-second grace period. -/
def acquireBody (rand : Nat → Nat) (outcomes : Nat → Option Int) (fuel : Nat)
    (pl : Pool) (pid : Nat) (now : ℚ) : AcqOutcome :=
  let t1 := if isDisabled (pl.store pid) now then (pl.store pid).disable_until else now
  if isStarted (pl.store pid) then .success pl pid t1
  else
    match startLoop rand outcomes pl.aclOk (pl.store pid) none 0 fuel with
    | none => .blocked
    | some (.ok st', ports) =>
      .success { pl with store := updStore pl.store pid st' } pid
        (t1 + (ports.length : ℚ))
    | some (.error e, _) => .failure { pl with sem := pl.sem + 1 } e

/-- `ProxyPool.acquire` (core.py 176-202): wait for a gate permit, pop from
`active` (non-blocking) falling back to a blocking pop from `standby`, then
run the body; any exception after the permit was granted releases the permit
and propagates. -/
def poolAcquire (rand : Nat → Nat) (outcomes : Nat → Option Int) (fuel : Nat)
    (pool : Pool) (now : ℚ) : AcqOutcome :=
  if pool.sem = 0 then .blocked
  else
    let pl0 : Pool := { pool with sem := pool.sem - 1 }
    match cpqGet pl0.active with
    | .ok (pid, act') =>
      acquireBody rand outcomes fuel { pl0 with active := act' } pid now
    | .error _ =>
      match cpqGet pl0.standby with
      | .ok (pid, stb') =>
        acquireBody rand outcomes fuel { pl0 with standby := stb' } pid now
      | .error _ => .blocked

/-! ## `ProxyPool.start` (core.py 244-284) -/

/-- Errors that `ProxyPool.start` can raise. -/
inductive PoolErr where
  | startFailed (e : StartErr)
  | queueErr (e : QueueErr)
  | noAvailable
deriving DecidableEq, Repr

/-- The `timeout <= 0` distribution loop (core.py 251-256): for each node
try `active.put_nowait`, on `QueueFull` fall back to `standby.put_nowait`;
an error from the standby push is not caught and propagates. -/
def distributePlain (pool : Pool) : List Nat → Except QueueErr Pool
  | [] => .ok pool
  | pid :: rest =>
    match cpqPut pool.active ((pool.store pid).disable_until) pid with
    | .ok q => distributePlain { pool with active := q } rest
    | .error _ =>
      match cpqPut pool.standby ((pool.store pid).disable_until) pid with
      | .ok q => distributePlain { pool with standby := q } rest
      | .error e => .error e

/-- The post-test distribution loop (core.py 263-273): a node that passed
the test goes to `active`, on `QueueFull` it is stopped and goes to
`standby`; a node that failed the test is stopped. -/
def distributeTested (testRes : Nat → Bool) (pool : Pool) :
    List Nat → Except QueueErr Pool
  | [] => .ok pool
  | pid :: rest =>
    if testRes pid then
      match cpqPut pool.active ((pool.store pid).disable_until) pid with
      | .ok q => distributeTested testRes { pool with active := q } rest
      | .error _ =>
        let store' := updStore pool.store pid (proxyStop (pool.store pid))
        match cpqPut pool.standby ((store' pid).disable_until) pid with
        | .ok q =>
          distributeTested testRes { pool with store := store', standby := q } rest
        | .error e => .error e
    else
      distributeTested testRes
        { pool with store := updStore pool.store pid (proxyStop (pool.store pid)) }
        rest

/-- `ProxyPool.count` (core.py 298-304). -/
def poolCount (pool : Pool) : Nat :=
  cpqSize pool.active + cpqSize pool.standby

/-- The tail of `ProxyPool.start` (core.py 275-284): raise `'无可用节点'`
when `active.qsize() == 0`, else size the semaphore to `count()` when
`max_acquire <= 0` and to `min(max_acquire, count())` otherwise. -/
def finishStart (pool : Pool) : Pool × Option PoolErr :=
  if cpqSize pool.active = 0 then (pool, some .noAvailable)
  else if pool.maxAcquire ≤ 0 then ({ pool with sem := poolCount pool }, none)
  else ({ pool with sem := (min pool.maxAcquire (poolCount pool : Int)).toNat }, none)

/-- The result of `p.start(acl=self._acl)` for node `p` during the bulk
startup: each node gets its own port stream `randOf p` and spawn oracle
`outOf p`, and the shared `fuel` bound on loop unfolding. -/
def bulkStartResult (randOf : Nat → Nat → Nat) (outOf : Nat → Nat → Option Int)
    (fuel : Nat) (pool : Pool) (p : Nat) :
    Option (Except StartErr ProxyState × List Nat) :=
  startLoop (randOf p) (outOf p) pool.aclOk (pool.store p) none 0 fuel

/-- `ProxyPool.start(timeout)` (core.py 244-284).  `testRes p` is the
health-probe verdict for node `p` (`tests`, util.py 105-141, an external
HTTP check).  The `gather` over the per-node starts fails fast: if any
node's start raises, that exception propagates (the first failing node in
list order in this sequential determinization) after recording the state of
the nodes whose starts completed; if no start raises but some start loop
never terminates, the `gather` never completes (`none`).  A `none` result
models an execution of `start` that never returns. -/
def poolStart (randOf : Nat → Nat → Nat) (outOf : Nat → Nat → Option Int)
    (fuel : Nat) (testRes : Nat → Bool) (pool : Pool) (timeout : ℚ) :
    Option (Pool × Option PoolErr) :=
  if timeout ≤ 0 then
    match distributePlain pool pool.all with
    | .ok pl => some (finishStart pl)
    | .error e => some (pool, some (.queueErr e))
  else
    -- await gather(*[p.start(acl=self._acl) for p in self._all])
    let store' : Nat → ProxyState := fun x =>
      if x ∈ pool.all then
        match bulkStartResult randOf outOf fuel pool x with
        | some (.ok st', _) => st'
        | _ => pool.store x
      else pool.store x
    match pool.all.find? (fun p =>
        match bulkStartResult randOf outOf fuel pool p with
        | some (.error _, _) => true
        | _ => false) with
    | some p =>
      match bulkStartResult randOf outOf fuel pool p with
      | some (.error e, _) => some ({ pool with store := store' }, some (.startFailed e))
      | _ => none
    | none =>
      if pool.all.all (fun p => (bulkStartResult randOf outOf fuel pool p).isSome) then
        match distributeTested testRes { pool with store := store' } pool.all with
        | .ok pl => some (finishStart pl)
        | .error e => some ({ pool with store := store' }, some (.queueErr e))
      else none

/-! ## Concrete instances used by witnesses and counterexamples -/

/-- Two nodes with the same server address but different method/credential. -/
def proxyA : Proxy :=
  { server_addr := "s1.example.com:8388", encrypt_method := "aes-256-gcm",
    password := "pw1", name := "node-A" }

/-- See `proxyA`. -/
def proxyB : Proxy :=
  { server_addr := "s1.example.com:8388",
    encrypt_method := "chacha20-ietf-poly1305", password := "pw2",
    name := "node-B" }

/-- A node state with a running recorded process. -/
def stRunning : ProxyState :=
  { disable_until := 0, process := some none, port := some 12000 }

/-- A node state with no recorded process. -/
def stIdle : ProxyState :=
  { disable_until := 0, process := none, port := none }

/-- A pool whose active queue (capacity 1) is already full, with node 1
running and not disabled: releasing node 1 exercises the overflow branch. -/
def poolFullActive : Pool :=
  { all := [1, 2]
    store := fun x => if x = 1 then stRunning else stIdle
    maxAcquire := 1
    aclOk := none
    active := { maxsize := 1, auto_id := 1, queue := [((0 : ℚ), 1, 2)] }
    standby := cpqInit Nat 0
    sem := 0 }

/-- A pool with room in the active queue, used by release witnesses. -/
def poolRoomy : Pool :=
  { all := [1]
    store := fun _ => stRunning
    maxAcquire := 0
    aclOk := none
    active := cpqInit Nat 0
    standby := cpqInit Nat 0
    sem := 1 }

/-- A single-node pool whose configured ACL path is not a regular file, so
the node's start raises `FileNotFoundError`. -/
def poolBadAcl : Pool :=
  { all := [7]
    store := fun _ => stIdle
    maxAcquire := 0
    aclOk := some false
    active := cpqInit Nat 0
    standby := cpqInit Nat 0
    sem := 0 }

/-- A pool with node 1 checked out: no free permits, both queues empty. -/
def poolCheckedOut : Pool :=
  { all := [1]
    store := fun _ => stRunning
    maxAcquire := 1
    aclOk := none
    active := { maxsize := 1, auto_id := 0, queue := [] }
    standby := cpqInit Nat 0
    sem := 0 }

/-- Priority callback for the queue witness: all keys equal, so pops must
follow insertion order. -/
def constPrio : Nat → ℚ := fun _ => 0

/-- The queue reached from a fresh unbounded `CustomPriorityQueue` by
pushing item 5 (all keys equal). -/
def cpqExample1 : CPQ Nat :=
  { maxsize := 0, auto_id := 1, queue := [((0 : ℚ), 1, 5)] }

/-- The queue reached from `cpqExample1` by pushing item 3: the equal-key
entry goes behind the earlier one. -/
def cpqExample2 : CPQ Nat :=
  { maxsize := 0, auto_id := 2, queue := [((0 : ℚ), 1, 5), ((0 : ℚ), 2, 3)] }

/-! ## Helper lemmas -/

theorem entryLe_refl {T : Type} (e : Entry T) : entryLe e e :=
  Or.inr ⟨rfl, le_refl _⟩

theorem cpqFull_unbounded {T : Type} (q : CPQ T) (h : q.maxsize ≤ 0) :
    cpqFull q = false := by
  simp [cpqFull, h]

theorem cpqFull_empty {T : Type} (q : CPQ T) (h : q.queue = []) :
    cpqFull q = false := by
  by_cases hm : q.maxsize ≤ 0
  · simp [cpqFull, hm]
  · simp [cpqFull, hm, cpqSize, h]

theorem cpqPut_unbounded_ok {T : Type} (q : CPQ T) (key : ℚ) (t : T)
    (h : q.maxsize ≤ 0) :
    cpqPut q key t
      = .ok { q with
              auto_id := q.auto_id + 1,
              queue := q.queue.orderedInsert entryLe (key, q.auto_id + 1, t) } := by
  simp [cpqPut, cpqFull_unbounded q h]

theorem orderedInsert_ne_nil {T : Type} (l : List (Entry T)) (e : Entry T) :
    l.orderedInsert entryLe e ≠ [] := by
  intro hcontra
  have : e ∈ l.orderedInsert entryLe e := by
    rw [List.mem_orderedInsert]
    exact Or.inl rfl
  rw [hcontra] at this
  exact absurd this (List.not_mem_nil e)

theorem finishStart_snd (pl : Pool) :
    (finishStart pl).2
      = if pl.active.queue = [] then some PoolErr.noAvailable else none := by
  unfold finishStart
  by_cases hq : pl.active.queue = []
  · simp [cpqSize, hq]
  · have hlen : ¬ cpqSize pl.active = 0 := by
      simpa [cpqSize, List.length_eq_zero] using hq
    by_cases hm : pl.maxAcquire ≤ 0 <;> simp [hlen, hq, hm]

/-- The `timeout <= 0` distribution loop succeeds whenever standby is
unbounded, and it leaves the active queue empty iff it was empty and there
was nothing to distribute. -/
theorem distributePlain_ok (pids : List Nat) (pool : Pool)
    (hstb : pool.standby.maxsize ≤ 0) :
    ∃ pl, distributePlain pool pids = .ok pl
      ∧ (pl.active.queue = [] ↔ (pool.active.queue = [] ∧ pids = [])) := by
  induction pids generalizing pool with
  | nil => exact ⟨pool, rfl, by simp⟩
  | cons pid rest ih =>
    cases hfa : cpqFull pool.active with
    | false =>
      obtain ⟨pl, heq, hiff⟩ := ih
        { pool with active := { pool.active with
            auto_id := pool.active.auto_id + 1,
            queue := pool.active.queue.orderedInsert entryLe
              ((pool.store pid).disable_until, pool.active.auto_id + 1, pid) } }
        hstb
      refine ⟨pl, ?_, ?_⟩
      · simpa [distributePlain, cpqPut, hfa] using heq
      · simp only at hiff
        rw [hiff]
        simp [orderedInsert_ne_nil]
    | true =>
      have hne : pool.active.queue ≠ [] := by
        intro hc
        rw [cpqFull_empty pool.active hc] at hfa
        exact Bool.false_ne_true hfa
      obtain ⟨pl, heq, hiff⟩ := ih
        { pool with standby := { pool.standby with
            auto_id := pool.standby.auto_id + 1,
            queue := pool.standby.queue.orderedInsert entryLe
              ((pool.store pid).disable_until, pool.standby.auto_id + 1, pid) } }
        hstb
      refine ⟨pl, ?_, ?_⟩
      · simpa [distributePlain, cpqPut, hfa, cpqFull_unbounded pool.standby hstb]
          using heq
      · simp only at hiff
        rw [hiff]
        simp [hne]

/-- The post-test distribution loop succeeds whenever standby is unbounded,
and it leaves the active queue empty iff it was empty and no node passed
the health test. -/
theorem distributeTested_ok (testRes : Nat → Bool) (pids : List Nat)
    (pool : Pool) (hstb : pool.standby.maxsize ≤ 0) :
    ∃ pl, distributeTested testRes pool pids = .ok pl
      ∧ (pl.active.queue = []
          ↔ (pool.active.queue = [] ∧ pids.filter testRes = [])) := by
  induction pids generalizing pool with
  | nil => exact ⟨pool, rfl, by simp⟩
  | cons pid rest ih =>
    cases htst : testRes pid with
    | false =>
      obtain ⟨pl, heq, hiff⟩ := ih
        { pool with store := updStore pool.store pid (proxyStop (pool.store pid)) }
        hstb
      refine ⟨pl, ?_, ?_⟩
      · simpa [distributeTested, htst] using heq
      · simp only at hiff
        rw [hiff]
        simp [List.filter_cons, htst]
    | true =>
      cases hfa : cpqFull pool.active with
      | false =>
        obtain ⟨pl, heq, hiff⟩ := ih
          { pool with active := { pool.active with
              auto_id := pool.active.auto_id + 1,
              queue := pool.active.queue.orderedInsert entryLe
                ((pool.store pid).disable_until, pool.active.auto_id + 1, pid) } }
          hstb
        refine ⟨pl, ?_, ?_⟩
        · simpa [distributeTested, htst, cpqPut, hfa] using heq
        · simp only at hiff
          rw [hiff]
          simp [List.filter_cons, htst, orderedInsert_ne_nil]
      | true =>
        have hne : pool.active.queue ≠ [] := by
          intro hc
          rw [cpqFull_empty pool.active hc] at hfa
          exact Bool.false_ne_true hfa
        obtain ⟨pl, heq, hiff⟩ := ih
          { pool with
              store := updStore pool.store pid (proxyStop (pool.store pid)),
              standby := { pool.standby with
                auto_id := pool.standby.auto_id + 1,
                queue := pool.standby.queue.orderedInsert entryLe
                  ((updStore pool.store pid (proxyStop (pool.store pid)) pid).disable_until,
                    pool.standby.auto_id + 1, pid) } }
          hstb
        refine ⟨pl, ?_, ?_⟩
        · simpa [distributeTested, htst, cpqPut, hfa,
            cpqFull_unbounded pool.standby hstb] using heq
        · simp only at hiff
          rw [hiff]
          simp [hne]

/-- One `_start` call on a non-started node with a valid (or absent) ACL:
the outcome is decided by the spawn oracle. -/
theorem startOnce_not_started (st : ProxyState) (aclOk : Option Bool)
    (outcome : Option Int) (port : Nat)
    (hns : isStarted st = false) (hacl : aclOk ≠ some false) :
    startOnce st aclOk outcome port
      = match outcome with
        | none => (.ok { st with process := some none, port := some port }, [port])
        | some _ => (.error .proxyError, [port]) := by
  unfold startOnce
  rw [hns]
  simp only [Bool.false_eq_true, if_false]

/-- The random-port retry loop of `Proxy.start`: if the first `n` trials
from index `i` fail with `ProxyError` and trial `i + n` succeeds, the loop
returns the state recorded at trial `i + n` after spawning exactly the
`n + 1` ports `rand i, …, rand (i + n)`. -/
theorem startLoop_retry_success (rand : Nat → Nat) (outcomes : Nat → Option Int)
    (aclOk : Option Bool) (st : ProxyState)
    (hns : isStarted st = false) (hacl : aclOk ≠ some false) :
    ∀ n i, (∀ j, j < n → ∃ rc, outcomes (i + j) = some rc) →
      outcomes (i + n) = none →
      ∀ fuel, n < fuel →
        startLoop rand outcomes aclOk st none i fuel
          = some (.ok { st with process := some none, port := some (rand (i + n)) },
              (List.range (n + 1)).map (fun j => rand (i + j))) := by
  intro n
  induction n with
  | zero =>
    intro i hfail hsucc fuel hfuel
    obtain ⟨k, rfl⟩ : ∃ k, fuel = k + 1 := ⟨fuel - 1, by omega⟩
    have h0 : outcomes i = none := by simpa using hsucc
    simp only [startLoop]
    rw [startOnce_not_started st aclOk (outcomes i) (rand i) hns hacl, h0]
    simp [List.range_succ]
  | succ n ih =>
    intro i hfail hsucc fuel hfuel
    obtain ⟨k, rfl⟩ : ∃ k, fuel = k + 1 := ⟨fuel - 1, by omega⟩
    obtain ⟨rc, hrc⟩ := hfail 0 (Nat.succ_pos n)
    have hrc' : outcomes i = some rc := by simpa using hrc
    have ihi := ih (i + 1)
      (fun j hj => by
        obtain ⟨rc', hrc''⟩ := hfail (j + 1) (Nat.succ_lt_succ hj)
        exact ⟨rc', by rw [show i + 1 + j = i + (j + 1) by omega]; exact hrc''⟩)
      (by rw [show i + 1 + n = i + (n + 1) by omega]; exact hsucc)
      k (by omega)
    simp only [startLoop]
    rw [startOnce_not_started st aclOk (outcomes i) (rand i) hns hacl, hrc']
    simp only [ihi]
    have hlist : [rand i] ++ (List.range (n + 1)).map (fun j => rand (i + 1 + j))
        = (List.range (n + 1 + 1)).map (fun j => rand (i + j)) := by
      conv_rhs => rw [List.range_succ_eq_map, List.map_cons, List.map_map]
      rw [List.singleton_append]
      refine congrArg₂ List.cons (congrArg rand (Nat.add_zero i).symm) ?_
      refine List.map_congr_left fun j hj => ?_
      simp only [Function.comp]
      exact congrArg rand (by omega)
    rw [show i + (n + 1) = i + 1 + n by omega]
    exact congrArg some (congrArg (Prod.mk _) hlist)

/-- If every trial fails with `ProxyError`, the port-`None` retry loop of
`Proxy.start` never returns (the `while True` has no attempt bound). -/
theorem startLoop_all_fail_none (rand : Nat → Nat) (outcomes : Nat → Option Int)
    (aclOk : Option Bool) (st : ProxyState)
    (hns : isStarted st = false) (hacl : aclOk ≠ some false)
    (hfail : ∀ i, ∃ rc, outcomes i = some rc) :
    ∀ fuel i, startLoop rand outcomes aclOk st none i fuel = none := by
  intro fuel
  induction fuel with
  | zero => intro i; rfl
  | succ k ih =>
    intro i
    obtain ⟨rc, hrc⟩ := hfail i
    simp only [startLoop]
    rw [startOnce_not_started st aclOk (outcomes i) (rand i) hns hacl, hrc]
    simp only [ih (i + 1)]

/-! ## Claim theorems -/

/-- C1 (amended): `Proxy` equality and hashing are determined by the server
address alone — `encrypt_method`, `password` and the display name are all
excluded from identity. -/
theorem proxy_identity_addr_only (a b : Proxy) :
    proxyEq a b = true ↔ a.server_addr = b.server_addr := by
  unfold proxyEq hashKey
  rw [beq_iff_eq]
  constructor
  · intro h
    have hd := congrArg String.data h
    simp only [String.data_append] at hd
    exact String.ext (List.append_cancel_left (List.append_cancel_right hd))
  · intro h
    rw [h]

/-- C1 (counterexample): two nodes with the same address but different
encryption methods and credentials are nonetheless equal under the code's
`__eq__`/`__hash__`, so equality is not equivalent to the
(address, method, credential) triples matching. -/
theorem proxy_identity_triple_counterexample :
    ¬ (proxyEq proxyA proxyB = true ↔
        (proxyA.server_addr = proxyB.server_addr
        ∧ proxyA.encrypt_method = proxyB.encrypt_method
        ∧ proxyA.password = proxyB.password)) := by
  decide

/-- C4: `acquire` never leaks a gate permit — in every execution that
raises after the permit was granted, the permit has been released again
(final free-permit count equals the initial one) and the error surfaces to
the caller; on success the permit stays held (free count one lower). -/
theorem acquire_no_permit_leak (rand : Nat → Nat) (outcomes : Nat → Option Int)
    (fuel : Nat) (pool : Pool) (now : ℚ) :
    match poolAcquire rand outcomes fuel pool now with
    | .success pl _ _ => pl.sem + 1 = pool.sem
    | .failure pl _ => pl.sem = pool.sem
    | .blocked => True := by
  unfold poolAcquire
  by_cases hs : pool.sem = 0
  · simp [hs]
  · have hbody : ∀ (pl : Pool) (pid : Nat),
        pl.sem = pool.sem - 1 →
        match acquireBody rand outcomes fuel pl pid now with
        | .success pl' _ _ => pl'.sem + 1 = pool.sem
        | .failure pl' _ => pl'.sem = pool.sem
        | .blocked => True := by
      intro pl pid hpl
      unfold acquireBody
      by_cases hst : isStarted (pl.store pid) = true
      · simp [hst, hpl]
        omega
      · simp only [Bool.not_eq_true] at hst
        simp only [hst, Bool.false_eq_true, if_false]
        match hloop : startLoop rand outcomes pl.aclOk (pl.store pid) none 0 fuel with
        | none => simp
        | some (.ok st', ports) =>
          simp [hpl]
          omega
        | some (.error e, ports) =>
          simp [hpl]
          omega
    simp only [hs, if_false]
    match hget : cpqGet { pool with sem := pool.sem - 1 : Pool }.active with
    | .ok (pid, act') =>
      simp only
      exact hbody _ pid rfl
    | .error e1 =>
      match hget2 : cpqGet { pool with sem := pool.sem - 1 : Pool }.standby with
      | .ok (pid, stb') =>
        simp only
        exact hbody _ pid rfl
      | .error e2 => simp

/-- C5: `release` is total and releases exactly one gate permit: for every
node and pool state whose standby queue is unbounded (as constructed,
core.py 174), `release` raises no error and increments the free-permit
count by exactly one. -/
theorem release_total_one_permit (pool : Pool) (pid : Nat) (now : ℚ)
    (hstb : pool.standby.maxsize ≤ 0) :
    (poolRelease pool pid now).2 = none
    ∧ (poolRelease pool pid now).1.sem = pool.sem + 1 := by
  unfold poolRelease
  have hsf := cpqFull_unbounded pool.standby hstb
  by_cases hd : isDisabled (pool.store pid) now = true
  · simp [hd, cpqPut, hsf]
  · simp only [Bool.not_eq_true] at hd
    cases hfa : cpqFull pool.active with
    | false => simp [hd, cpqPut, hfa]
    | true => simp [hd, cpqPut, hfa, hsf]

/-- C5 witness. -/
theorem release_total_one_permit_witness :
    poolRoomy.standby.maxsize ≤ 0
    ∧ ((poolRelease poolRoomy 1 5).2 = none
      ∧ (poolRelease poolRoomy 1 5).1.sem = poolRoomy.sem + 1) :=
  ⟨by decide, release_total_one_permit poolRoomy 1 5 (by decide)⟩

/-- C10: a queue entry's priority key is frozen at push time
(`_put` stores `(self._prio(item), ...)`, util.py 178-181), so
`ProxyPool.disable` — which only rewrites the node's `disable_until` in the
store — leaves both queues, their entries and hence every pop result
untouched: disabling an already-queued node does not demote it in the pop
order. -/
theorem disable_leaves_queues_untouched (pool : Pool) (pid : Nat)
    (second now : ℚ) :
    (poolDisable pool pid second now).active = pool.active
    ∧ (poolDisable pool pid second now).standby = pool.standby
    ∧ (poolDisable pool pid second now).sem = pool.sem
    ∧ cpqGet (poolDisable pool pid second now).active = cpqGet pool.active
    ∧ cpqGet (poolDisable pool pid second now).standby = cpqGet pool.standby
    ∧ ((poolDisable pool pid second now).store pid).disable_until
        = now + second := by
  refine ⟨rfl, rfl, rfl, rfl, rfl, ?_⟩
  simp [poolDisable, updStore]

/-- C3 (counterexample): releasing a *non-disabled* node while the active
queue is at capacity stops the node's process (core.py 219-221: the
`QueueFull` handler calls `proxy.stop()` before the standby push), so the
claim that a non-disabled release always leaves the process state unchanged
is false. -/
theorem release_overflow_stops_counterexample :
    isDisabled (poolFullActive.store 1) 5 = false
    ∧ (poolFullActive.store 1).process = some none
    ∧ ((poolRelease poolFullActive 1 5).1.store 1).process = none := by
  decide

/-- C3 (amended): releasing a non-disabled node pushes it into `active`
when there is room, leaving the node's state (and so its process)
untouched; when `active` is at capacity the node's process is *stopped* and
the node is pushed into `standby`.  Only the in-room case leaves the
process state unchanged. -/
theorem release_nondisabled (pool : Pool) (pid : Nat) (now : ℚ)
    (hnd : isDisabled (pool.store pid) now = false)
    (hstb : pool.standby.maxsize ≤ 0) :
    (poolRelease pool pid now).2 = none
    ∧ (if cpqFull pool.active then
        ((poolRelease pool pid now).1.store pid).process = none
        ∧ ∃ e ∈ (poolRelease pool pid now).1.standby.queue, e.2.2 = pid
      else
        (poolRelease pool pid now).1.store = pool.store
        ∧ ∃ e ∈ (poolRelease pool pid now).1.active.queue, e.2.2 = pid) := by
  have hsf := cpqFull_unbounded pool.standby hstb
  cases hfa : cpqFull pool.active with
  | false =>
    simp only [poolRelease, hnd, Bool.false_eq_true, if_false, cpqPut, hfa,
      if_true, if_false]
    exact ⟨trivial, trivial,
      ((pool.store pid).disable_until, pool.active.auto_id + 1, pid),
      (List.mem_orderedInsert _).mpr (Or.inl rfl), rfl⟩
  | true =>
    simp only [poolRelease, hnd, Bool.false_eq_true, if_false, cpqPut, hfa,
      hsf, if_true, if_false]
    refine ⟨trivial, ?_, ?_⟩
    · simp [updStore, proxyStop]
    · exact ⟨((updStore pool.store pid (proxyStop (pool.store pid)) pid).disable_until,
        pool.standby.auto_id + 1, pid),
        (List.mem_orderedInsert _).mpr (Or.inl rfl), rfl⟩

/-- C3 witness. -/
theorem release_nondisabled_witness :
    (isDisabled (poolRoomy.store 1) 5 = false ∧ poolRoomy.standby.maxsize ≤ 0)
    ∧ ((poolRelease poolRoomy 1 5).2 = none
      ∧ (if cpqFull poolRoomy.active then
          ((poolRelease poolRoomy 1 5).1.store 1).process = none
          ∧ ∃ e ∈ (poolRelease poolRoomy 1 5).1.standby.queue, e.2.2 = 1
        else
          (poolRelease poolRoomy 1 5).1.store = poolRoomy.store
          ∧ ∃ e ∈ (poolRelease poolRoomy 1 5).1.active.queue, e.2.2 = 1)) :=
  ⟨⟨by decide, by decide⟩, release_nondisabled poolRoomy 1 5 (by decide) (by decide)⟩

/-- C2 (counterexample): with a positive test timeout, a single node whose
start raises (here: a configured ACL path that is not a regular file) makes
`ProxyPool.start` itself raise — the per-node start failure propagates to
the caller through the fail-fast `gather` (core.py 260) instead of being
isolated. -/
theorem bulk_start_failure_counterexample :
    (poolStart (fun _ _ => 10000) (fun _ _ => none) 1 (fun _ => true)
        poolBadAcl 1).map Prod.snd
      = some (some (.startFailed .fileNotFound)) := by
  decide

/-- C2 (amended): a per-node start failure during bulk `start` with a
positive test timeout is *not* isolated: if any node's start raises, the
whole batch aborts and `ProxyPool.start` surfaces a start failure to its
caller (nodes are only excluded by failing the health test, not by failing
to start). -/
theorem bulk_start_failure_propagates (randOf : Nat → Nat → Nat)
    (outOf : Nat → Nat → Option Int) (fuel : Nat) (testRes : Nat → Bool)
    (pool : Pool) (timeout : ℚ) (ht : ¬ timeout ≤ 0)
    (hp : ∃ p ∈ pool.all, ∃ e ports,
        bulkStartResult randOf outOf fuel pool p = some (.error e, ports)) :
    ∃ pl e, poolStart randOf outOf fuel testRes pool timeout
      = some (pl, some (.startFailed e)) := by
  have hfind : (pool.all.find? (fun p =>
      match bulkStartResult randOf outOf fuel pool p with
      | some (.error _, _) => true
      | _ => false)).isSome := by
    rw [List.find?_isSome]
    obtain ⟨p, hmem, e, ports, hres⟩ := hp
    exact ⟨p, hmem, by rw [hres]⟩
  obtain ⟨q, hq⟩ := Option.isSome_iff_exists.mp hfind
  have hqprop := List.find?_some hq
  unfold poolStart
  simp only [ht, if_false, hq]
  match hres : bulkStartResult randOf outOf fuel pool q with
  | some (.error e, ports) => exact ⟨_, e, rfl⟩
  | some (.ok st, ports) => rw [hres] at hqprop; simp at hqprop
  | none => rw [hres] at hqprop; simp at hqprop

/-- C2 witness (for the amended theorem). -/
theorem bulk_start_failure_propagates_witness :
    (¬ (1 : ℚ) ≤ 0
    ∧ ∃ p ∈ poolBadAcl.all, ∃ e ports,
        bulkStartResult (fun _ _ => 10000) (fun _ _ => none) 1 poolBadAcl p
          = some (.error e, ports))
    ∧ ∃ pl e, poolStart (fun _ _ => 10000) (fun _ _ => none) 1 (fun _ => true)
        poolBadAcl 1 = some (pl, some (.startFailed e)) :=
  ⟨⟨by norm_num, 7, by decide, .fileNotFound, [], by decide⟩,
    bulk_start_failure_propagates _ _ _ _ _ _ (by norm_num)
      ⟨7, by decide, .fileNotFound, [], by decide⟩⟩

/-- Invariant of reachable `CustomPriorityQueue` states: the entry list is
sorted in the `(key, id)` order, every entry's key is the priority of its
item as evaluated at push time, and every entry's sequence number is at
most the current `_auto_id`. -/
theorem reach_invariant {T : Type} (prio : T → ℚ) (ms : Int) (q : CPQ T)
    (h : Reach prio ms q) :
    List.Sorted entryLe q.queue
    ∧ ∀ e ∈ q.queue, e.1 = prio e.2.2 ∧ e.2.1 ≤ q.auto_id := by
  induction h with
  | init => exact ⟨List.sorted_nil, by simp [cpqInit]⟩
  | @put q0 q' t hq hput ih =>
    obtain ⟨hsort, hmem⟩ := ih
    unfold cpqPutP cpqPut at hput
    cases hf : cpqFull q0 with
    | true => rw [hf] at hput; simp at hput
    | false =>
      rw [hf] at hput
      simp only [Bool.false_eq_true, if_false, Except.ok.injEq] at hput
      subst hput
      constructor
      · exact List.Sorted.orderedInsert _ _ hsort
      · intro e he
        rcases (List.mem_orderedInsert _).mp he with rfl | he'
        · exact ⟨rfl, le_refl _⟩
        · obtain ⟨h1, h2⟩ := hmem e he'
          exact ⟨h1, h2.trans (Nat.le_succ _)⟩
  | @get q0 q' t hq hget ih =>
    obtain ⟨hsort, hmem⟩ := ih
    unfold cpqGet at hget
    match hq2 : q0.queue with
    | [] => rw [hq2] at hget; simp at hget
    | e :: rest =>
      rw [hq2] at hget
      simp only [Except.ok.injEq, Prod.mk.injEq] at hget
      obtain ⟨-, rfl⟩ := hget
      rw [hq2] at hsort hmem
      constructor
      · exact (List.sorted_cons.mp hsort).2
      · intro e' he'
        exact hmem e' (List.mem_cons_of_mem e he')

/-- C7: the priority queue ordering contract.  In every reachable queue
state the stored entries are sorted by `(key, insertion id)`; a pop removes
the head entry, which is minimal in that order among all stored entries
(ascending key order, and among equal keys the smaller — i.e. earlier —
insertion sequence number first); and a push assigns the monotonically
increasing sequence number `_auto_id + 1`, strictly larger than the
sequence number of every entry already in the queue, so equal-key entries
leave in insertion order. -/
theorem cpq_ordering_contract {T : Type} (prio : T → ℚ) (ms : Int) (q : CPQ T)
    (h : Reach prio ms q) :
    List.Sorted entryLe q.queue
    ∧ (∀ e ∈ q.queue, e.1 = prio e.2.2 ∧ e.2.1 ≤ q.auto_id)
    ∧ (∀ e rest, q.queue = e :: rest →
        cpqGet q = .ok (e.2.2, { q with queue := rest })
        ∧ ∀ e' ∈ q.queue, entryLe e e')
    ∧ (∀ t q', cpqPutP prio q t = .ok q' →
        q'.queue = q.queue.orderedInsert entryLe (prio t, q.auto_id + 1, t)
        ∧ ∀ e ∈ q.queue, e.2.1 < q.auto_id + 1) := by
  obtain ⟨hsort, hmem⟩ := reach_invariant prio ms q h
  refine ⟨hsort, hmem, ?_, ?_⟩
  · intro e rest hq2
    constructor
    · unfold cpqGet
      rw [hq2]
    · intro e' he'
      rw [hq2] at he'
      rcases List.mem_cons.mp he' with rfl | hmem'
      · exact entryLe_refl e'
      · rw [hq2] at hsort
        exact List.rel_of_sorted_cons hsort e' hmem'
  · intro t q' hput
    unfold cpqPutP cpqPut at hput
    cases hf : cpqFull q with
    | true => rw [hf] at hput; simp at hput
    | false =>
      rw [hf] at hput
      simp only [Bool.false_eq_true, if_false, Except.ok.injEq] at hput
      subst hput
      exact ⟨rfl, fun e he => Nat.lt_succ_of_le (hmem e he).2⟩

/-- C8: pool exhaustion is fatal exactly when empty — on a fresh pool
(empty queues, unbounded standby) whose per-node starts all succeed when
testing is enabled, `ProxyPool.start` raises the `'无可用节点'` ("no
available nodes") error if and only if zero nodes survive the
distribution/filtering (all nodes for `timeout ≤ 0`, the health-test
passers otherwise). -/
theorem start_exhausted_iff (randOf : Nat → Nat → Nat)
    (outOf : Nat → Nat → Option Int) (fuel : Nat) (testRes : Nat → Bool)
    (pool : Pool) (timeout : ℚ)
    (hA : pool.active.queue = []) (hstb : pool.standby.maxsize ≤ 0)
    (hstart : ¬ timeout ≤ 0 → ∀ p ∈ pool.all, ∃ st ports,
        bulkStartResult randOf outOf fuel pool p = some (.ok st, ports)) :
    ∃ pl, poolStart randOf outOf fuel testRes pool timeout
      = some (pl,
          if (if timeout ≤ 0 then pool.all else pool.all.filter testRes) = []
          then some PoolErr.noAvailable else none) := by
  by_cases ht : timeout ≤ 0
  · obtain ⟨pl, heq, hiff⟩ := distributePlain_ok pool.all pool hstb
    refine ⟨(finishStart pl).1, ?_⟩
    unfold poolStart
    rw [if_pos ht, heq]
    rw [Option.some_inj, Prod.ext_iff]
    refine ⟨rfl, ?_⟩
    rw [finishStart_snd pl, if_pos ht]
    by_cases hall : pool.all = []
    · rw [if_pos (hiff.mpr ⟨hA, hall⟩), if_pos hall]
    · rw [if_neg (fun hc => hall (hiff.mp hc).2), if_neg hall]
  · have hok := hstart ht
    obtain ⟨pl, heq, hiff⟩ := distributeTested_ok testRes pool.all
      { pool with store := fun x =>
          if x ∈ pool.all then
            match bulkStartResult randOf outOf fuel pool x with
            | some (.ok st', _) => st'
            | _ => pool.store x
          else pool.store x }
      hstb
    have hfind : pool.all.find? (fun p =>
        match bulkStartResult randOf outOf fuel pool p with
        | some (.error _, _) => true
        | _ => false) = none := by
      rw [List.find?_eq_none]
      intro p hp
      obtain ⟨st, ports, hres⟩ := hok p hp
      rw [hres]
      simp
    have hall_some : pool.all.all
        (fun p => (bulkStartResult randOf outOf fuel pool p).isSome) = true := by
      rw [List.all_eq_true]
      intro p hp
      obtain ⟨st, ports, hres⟩ := hok p hp
      rw [hres]
      rfl
    refine ⟨(finishStart pl).1, ?_⟩
    unfold poolStart
    rw [if_neg ht, hfind]
    simp only [hall_some, if_true, heq]
    rw [Option.some_inj, Prod.ext_iff]
    refine ⟨rfl, ?_⟩
    rw [finishStart_snd pl, if_neg ht]
    by_cases hall : pool.all.filter testRes = []
    · rw [if_pos (hiff.mpr ⟨hA, hall⟩), if_pos hall]
    · rw [if_neg (fun hc => hall (hiff.mp hc).2), if_neg hall]

/-- C8 witness. -/
theorem start_exhausted_iff_witness :
    (poolRoomy.active.queue = [] ∧ poolRoomy.standby.maxsize ≤ 0
    ∧ (¬ (0 : ℚ) ≤ 0 → ∀ p ∈ poolRoomy.all, ∃ st ports,
        bulkStartResult (fun _ _ => 10000) (fun _ _ => none) 1 poolRoomy p
          = some (.ok st, ports)))
    ∧ ∃ pl, poolStart (fun _ _ => 10000) (fun _ _ => none) 1 (fun _ => true)
        poolRoomy 0
      = some (pl,
          if (if (0 : ℚ) ≤ 0 then poolRoomy.all
              else poolRoomy.all.filter (fun _ => true)) = []
          then some PoolErr.noAvailable else none) :=
  ⟨⟨rfl, by decide, fun h => absurd le_rfl h⟩,
    start_exhausted_iff (fun _ _ => 10000) (fun _ _ => none) 1 (fun _ => true)
      poolRoomy 0 rfl (by decide) (fun h => absurd le_rfl h)⟩

/-- C9: the `Proxy.start` port policy, for a node that is not already
started with a valid (or absent) ACL configuration.  With an explicit
port exactly one attempt is made and a binding-conflict failure
(`ProxyError`) propagates without retry; with no port the loop keeps
drawing random ports from the inclusive `randint(10000, 60000)` range
(modelled as a port stream whose values lie in that range), retrying on
`ProxyError` until an attempt succeeds, and when every attempt fails the
loop never returns (no attempt bound). -/
theorem start_port_policy (rand : Nat → Nat) (outcomes : Nat → Option Int)
    (aclOk : Option Bool) (st : ProxyState) (p : Nat)
    (hns : isStarted st = false) (hacl : aclOk ≠ some false)
    (hrange : ∀ i, 10000 ≤ rand i ∧ rand i ≤ 60000) :
    (∀ rc fuel, outcomes 0 = some rc → fuel ≠ 0 →
        startLoop rand outcomes aclOk st (some p) 0 fuel
          = some (.error .proxyError, [p]))
    ∧ (∀ fuel, outcomes 0 = none → fuel ≠ 0 →
        startLoop rand outcomes aclOk st (some p) 0 fuel
          = some (.ok { st with process := some none, port := some p }, [p]))
    ∧ (∀ n fuel, (∀ j, j < n → ∃ rc, outcomes j = some rc) →
        outcomes n = none → n < fuel →
        ∃ ports, startLoop rand outcomes aclOk st none 0 fuel
            = some (.ok { st with process := some none, port := some (rand n) },
                ports)
          ∧ ports.length = n + 1
          ∧ ∀ q ∈ ports, 10000 ≤ q ∧ q ≤ 60000)
    ∧ ((∀ i, ∃ rc, outcomes i = some rc) →
        ∀ fuel, startLoop rand outcomes aclOk st none 0 fuel = none) := by
  refine ⟨?_, ?_, ?_, ?_⟩
  · intro rc fuel hrc hfuel
    obtain ⟨k, rfl⟩ : ∃ k, fuel = k + 1 := ⟨fuel - 1, by omega⟩
    simp only [startLoop]
    rw [startOnce_not_started st aclOk (outcomes 0) p hns hacl, hrc]
  · intro fuel hrc hfuel
    obtain ⟨k, rfl⟩ : ∃ k, fuel = k + 1 := ⟨fuel - 1, by omega⟩
    simp only [startLoop]
    rw [startOnce_not_started st aclOk (outcomes 0) p hns hacl, hrc]
  · intro n fuel hfail hsucc hfuel
    have h := startLoop_retry_success rand outcomes aclOk st hns hacl n 0
      (fun j hj => by simpa using hfail j hj) (by simpa using hsucc) fuel hfuel
    refine ⟨(List.range (n + 1)).map (fun j => rand (0 + j)), ?_, ?_, ?_⟩
    · rw [h]
      simp
    · simp
    · intro q hq
      obtain ⟨j, hj, rfl⟩ := List.mem_map.mp hq
      exact hrange (0 + j)
  · intro hfail fuel
    exact startLoop_all_fail_none rand outcomes aclOk st hns hacl hfail fuel 0

/-- C9 witness: the first trial fails with `ProxyError`, the second
succeeds. -/
theorem start_port_policy_witness :
    (isStarted stIdle = false ∧ (none : Option Bool) ≠ some false
    ∧ ∀ i, 10000 ≤ (fun _ : Nat => 12345) i ∧ (fun _ : Nat => 12345) i ≤ 60000)
    ∧ ((∀ rc fuel, (fun i => if i = 0 then some (1 : Int) else none) 0 = some rc →
          fuel ≠ 0 →
          startLoop (fun _ => 12345) (fun i => if i = 0 then some 1 else none)
              none stIdle (some 23456) 0 fuel
            = some (.error .proxyError, [23456]))
      ∧ (∀ fuel, (fun i => if i = 0 then some (1 : Int) else none) 0 = none →
          fuel ≠ 0 →
          startLoop (fun _ => 12345) (fun i => if i = 0 then some 1 else none)
              none stIdle (some 23456) 0 fuel
            = some (.ok { stIdle with process := some none, port := some 23456 },
                [23456]))
      ∧ (∀ n fuel,
          (∀ j, j < n → ∃ rc,
            (fun i => if i = 0 then some (1 : Int) else none) j = some rc) →
          (fun i => if i = 0 then some (1 : Int) else none) n = none → n < fuel →
          ∃ ports, startLoop (fun _ => 12345)
              (fun i => if i = 0 then some 1 else none) none stIdle none 0 fuel
            = some (.ok
                { stIdle with
                  process := some none
                  port := some ((fun _ : Nat => 12345) n) }, ports)
            ∧ ports.length = n + 1
            ∧ ∀ q ∈ ports, 10000 ≤ q ∧ q ≤ 60000)
      ∧ ((∀ i, ∃ rc,
            (fun i => if i = 0 then some (1 : Int) else none) i = some rc) →
          ∀ fuel, startLoop (fun _ => 12345)
              (fun i => if i = 0 then some 1 else none) none stIdle none 0 fuel
            = none)) :=
  ⟨⟨by decide, by decide, fun _ => ⟨by norm_num, by norm_num⟩⟩,
    start_port_policy (fun _ => 12345) (fun i => if i = 0 then some 1 else none)
      none stIdle 23456 (by decide) (by decide)
      (fun _ => ⟨by norm_num, by norm_num⟩)⟩

/-- C6: disable/recover timing.  On a pool with empty queues and all
permits checked out, running `disable(node, d)` at `now0`, then
`release(node)` at `now1` (still inside the disable window), then
`acquire()` at `now2` returns that node and no other, and it returns at
time `max now2 (now0 + d) + 1` — never before `now0 + d`, i.e. never
before `d` has elapsed since the disable (the popped node is found
disabled and the caller sleeps until `disable_until` passes, then the
node, whose process was stopped by the disabled release, is restarted,
which takes one grace period). -/
theorem disable_release_acquire_timing
    (pool : Pool) (pid : Nat) (d now0 now1 now2 : ℚ)
    (rand : Nat → Nat) (outcomes : Nat → Option Int) (fuel : Nat)
    (hA : pool.active.queue = []) (hS : pool.standby.queue = [])
    (hstb : pool.standby.maxsize ≤ 0) (hsem : pool.sem = 0)
    (hacl : pool.aclOk = none) (hfirst : outcomes 0 = none) (hfuel : fuel ≠ 0)
    (h1d : now1 < now0 + d) :
    (poolRelease (poolDisable pool pid d now0) pid now1).2 = none
    ∧ acqPid (poolAcquire rand outcomes fuel
        (poolRelease (poolDisable pool pid d now0) pid now1).1 now2) = some pid
    ∧ acqTime (poolAcquire rand outcomes fuel
        (poolRelease (poolDisable pool pid d now0) pid now1).1 now2)
      = some (max now2 (now0 + d) + 1)
    ∧ now0 + d ≤ max now2 (now0 + d) + 1 := by
  obtain ⟨k, rfl⟩ : ∃ k, fuel = k + 1 := ⟨fuel - 1, by omega⟩
  have hsf := cpqFull_unbounded pool.standby hstb
  have hd1 : isDisabled ((poolDisable pool pid d now0).store pid) now1 = true := by
    simp [poolDisable, updStore, isDisabled]
    linarith
  have hrel : poolRelease (poolDisable pool pid d now0) pid now1
      = ({ pool with
            store := updStore
              (updStore pool.store pid
                { pool.store pid with disable_until := now0 + d })
              pid
              { disable_until := now0 + d, process := none, port := none },
            standby := { pool.standby with
              auto_id := pool.standby.auto_id + 1,
              queue := [(now0 + d, pool.standby.auto_id + 1, pid)] },
            sem := pool.sem + 1 }, none) := by
    unfold poolRelease
    rw [hd1]
    simp [poolDisable, updStore, proxyStop, cpqPut, hsf, hS]
  rw [hrel]
  have ht1 : (if isDisabled
      { disable_until := now0 + d, process := none, port := none : ProxyState }
      now2 then (now0 + d) else now2) = max now2 (now0 + d) := by
    unfold isDisabled
    split_ifs with h
    · simp only [decide_eq_true_eq] at h
      exact (max_eq_right h.le).symm
    · simp only [decide_eq_true_eq, not_lt] at h
      exact (max_eq_left h).symm
  have hstart2 : startOnce
      { disable_until := now0 + d, process := none, port := none : ProxyState }
      none none (rand 0)
      = (.ok
          { disable_until := now0 + d
            process := some none
            port := some (rand 0) }, [rand 0]) :=
    (startOnce_not_started
      { disable_until := now0 + d, process := none, port := none }
      none none (rand 0) rfl (by simp)).trans rfl
  refine ⟨rfl, ?_, ?_, by
    have := le_max_right now2 (now0 + d)
    linarith⟩
  · simp [poolAcquire, hsem, acquireBody, startLoop, updStore, cpqGet,
      hA, hacl, hfirst, isStarted, acqPid, hstart2]
  · simp [poolAcquire, hsem, acquireBody, startLoop, updStore, cpqGet,
      hA, hacl, hfirst, isStarted, acqTime, hstart2, ht1]

/-- C6 witness: `d = 60` starting at `now0 = 0`, released at `now1 = 10`,
re-acquired at `now2 = 20`: the node comes back at time `61 ≥ 60`. -/
theorem disable_release_acquire_timing_witness :
    (poolCheckedOut.active.queue = [] ∧ poolCheckedOut.standby.queue = []
      ∧ poolCheckedOut.standby.maxsize ≤ 0 ∧ poolCheckedOut.sem = 0
      ∧ poolCheckedOut.aclOk = none ∧ (10 : ℚ) < 0 + 60)
    ∧ ((poolRelease (poolDisable poolCheckedOut 1 60 0) 1 10).2 = none
      ∧ acqPid (poolAcquire (fun _ => 12345) (fun _ => none) 1
          (poolRelease (poolDisable poolCheckedOut 1 60 0) 1 10).1 20) = some 1
      ∧ acqTime (poolAcquire (fun _ => 12345) (fun _ => none) 1
          (poolRelease (poolDisable poolCheckedOut 1 60 0) 1 10).1 20)
        = some (max 20 (0 + 60) + 1)
      ∧ (0 : ℚ) + 60 ≤ max 20 (0 + 60) + 1) :=
  ⟨⟨rfl, rfl, by decide, rfl, rfl, by norm_num⟩,
    disable_release_acquire_timing poolCheckedOut 1 60 0 10 20
      (fun _ => 12345) (fun _ => none) 1 rfl rfl (by decide) rfl rfl rfl
      (by decide) (by norm_num)⟩

/-- C7 witness. -/
theorem cpq_ordering_contract_witness :
    List.Sorted entryLe cpqExample2.queue
    ∧ (∀ e ∈ cpqExample2.queue, e.1 = constPrio e.2.2 ∧ e.2.1 ≤ cpqExample2.auto_id)
    ∧ (∀ e rest, cpqExample2.queue = e :: rest →
        cpqGet cpqExample2 = .ok (e.2.2, { cpqExample2 with queue := rest })
        ∧ ∀ e' ∈ cpqExample2.queue, entryLe e e')
    ∧ (∀ t q', cpqPutP constPrio cpqExample2 t = .ok q' →
        q'.queue = cpqExample2.queue.orderedInsert entryLe
          (constPrio t, cpqExample2.auto_id + 1, t)
        ∧ ∀ e ∈ cpqExample2.queue, e.2.1 < cpqExample2.auto_id + 1) :=
  cpq_ordering_contract constPrio 0 cpqExample2
    (Reach.put
      (Reach.put Reach.init
        (show cpqPutP constPrio (cpqInit Nat 0) 5 = .ok cpqExample1 by decide))
      (show cpqPutP constPrio cpqExample1 3 = .ok cpqExample2 by decide))

end SSPool
